import Mathlib

/-!
A shallow embedding of the indexing/retrieval subsystem of the auto-agent chat
component (the revision of `Chat.tsx` that adds document indexing).

Strings are modelled as `List Char`.  JavaScript operations are translated as
follows:

* `s.toLowerCase()`    — `toLowerStr` (per-character ASCII lowering; Unicode
  special casing is elided, the data handled by the component is ASCII);
* `s.split(/\s+/)`     — `splitWs`: maximal whitespace runs are collapsed to a
  single separator character and the string is then split at each separator,
  which reproduces the ECMAScript behaviour including the empty fields produced
  by leading and trailing separators (`"".split(/\s+/) = [""]`,
  `" ".split(/\s+/) = ["", ""]`);
* `s.includes(t)`      — `containsSub s t` (contiguous substring test);
* `s.trim()`           — `trim` (whitespace stripped from both ends);
* `arr.sort(cmp)`      — ECMAScript sorts are stable, so a sort with comparator
  `(a, b) => key(b) - key(a)` is modelled by tagging each element with its
  position and sorting by the total lexicographic order «key descending, then
  position ascending» (`jsStableSortByKeyDesc`);
* plain-object key order (`Object.entries`) — canonical array-index keys in
  ascending numeric order followed by the remaining keys in insertion order
  (`objectEntries`); the prototype-chain anomalies of the two inherited
  lowercase property names are elided.

The `\s` and `\w` character classes are modelled on their ASCII part.
-/

namespace AutoAgent

/-- Strings as lists of characters. -/
abbrev Str := List Char

/-- The ASCII part of the JavaScript `\s` class (space, tab, LF, VT, FF, CR). -/
def isWs (c : Char) : Bool :=
  c == ' ' || c == '\t' || c == '\n' || c == '\r' || c == '\x0b' || c == '\x0c'

/-- The JavaScript `\w` class: ASCII letters, digits and underscore. -/
def isWordChar (c : Char) : Bool :=
  c.isAlpha || c.isDigit || c == '_'

/-- `s.toLowerCase()`, per character. -/
def toLowerStr (s : Str) : Str := s.map Char.toLower

/-- Collapse each maximal run of whitespace to its last character. -/
def compressWs : Str → Str
  | [] => []
  | [c] => [c]
  | c :: d :: cs =>
    if isWs c && isWs d then compressWs (d :: cs) else c :: compressWs (d :: cs)

/-- `s.split(/\s+/)`: split at maximal whitespace runs, keeping the (possibly
empty) fields between them. -/
def splitWs (s : Str) : List Str :=
  (compressWs s).splitOnP isWs

/-- `s.includes(t)`: `t` occurs contiguously inside `s`. -/
def containsSub (s t : Str) : Bool :=
  match s with
  | [] => t.isEmpty
  | _ :: rest => t.isPrefixOf s || containsSub rest t

/-- `s.trim()`: strip whitespace from both ends. -/
def trim (s : Str) : Str :=
  ((s.dropWhile isWs).reverse.dropWhile isWs).reverse

/-- `arr.join(sep)`. -/
def joinSep (sep : Str) : List Str → Str
  | [] => []
  | [x] => x
  | x :: xs => x ++ sep ++ joinSep sep xs

/-- Decimal rendering of a natural number (for template interpolation). -/
def natToStr (n : Nat) : Str := (Nat.repr n).data

/-- The `IndexEntry` interface of the component.  `timestamp` abstracts the
`Date` value; `relevanceScore` is the optional transient field. -/
structure IndexEntry where
  id : Str
  content : Str
  keywords : List Str
  timestamp : Nat
  relevanceScore : Option Nat
deriving DecidableEq

/-! ### A model of ECMAScript stable `Array.prototype.sort` -/

/-- «key of `a` at least key of `b`»: the ordering induced by the comparator
`(a, b) => key b - key a` (descending by key). -/
def rKeyDesc (key : α → Nat) (a b : α) : Prop := key b ≤ key a

instance (key : α → Nat) : DecidableRel (rKeyDesc key) :=
  fun a b => Nat.decLe (key b) (key a)

instance (key : α → Nat) : IsTotal α (rKeyDesc key) :=
  ⟨fun a b => Nat.le_total (key b) (key a)⟩

instance (key : α → Nat) : IsTrans α (rKeyDesc key) :=
  ⟨fun _ _ _ hab hbc => Nat.le_trans hbc hab⟩

/-- Position-tagged version of `rKeyDesc`: key descending, and on equal keys
the original position ascending.  This is a total order on distinct positions,
so sorting by it is exactly stable descending-by-key sorting. -/
def rLexDesc (key : α → Nat) (x y : Nat × α) : Prop :=
  key y.2 < key x.2 ∨ (key x.2 = key y.2 ∧ x.1 ≤ y.1)

instance (key : α → Nat) : DecidableRel (rLexDesc key) :=
  fun x y => by unfold rLexDesc; exact inferInstance

instance (key : α → Nat) : IsTotal (Nat × α) (rLexDesc key) :=
  ⟨by intro x y; unfold rLexDesc; omega⟩

instance (key : α → Nat) : IsTrans (Nat × α) (rLexDesc key) :=
  ⟨by intro x y z; unfold rLexDesc; omega⟩

/-- ECMAScript stable sort with comparator `(a, b) => key b - key a`. -/
def jsStableSortByKeyDesc (key : α → Nat) (l : List α) : List α :=
  ((l.enum).insertionSort (rLexDesc key)).map Prod.snd

/-! ### The Retriever: `findRelevantIndexEntries` -/

/-- `query.toLowerCase().split(/\s+/)`. -/
def queryTokens (query : Str) : List Str := splitWs (toLowerStr query)

/-- The inner `queryWords.filter(word => keyword.toLowerCase().includes(word)
|| word.includes(keyword.toLowerCase())).length`. -/
def keywordMatchCount (queryWords : List Str) (keyword : Str) : Nat :=
  (queryWords.filter fun w =>
    containsSub (toLowerStr keyword) w || containsSub w (toLowerStr keyword)).length

/-- `entry.keywords.reduce((score, keyword) => score + …, 0)`. -/
def entryScore (queryWords : List Str) (e : IndexEntry) : Nat :=
  e.keywords.foldl (fun score kw => score + keywordMatchCount queryWords kw) 0

/-- `{ ...entry, relevanceScore }`: the scored copy of a record. -/
def scoreEntry (queryWords : List Str) (e : IndexEntry) : IndexEntry :=
  { e with relevanceScore := some (entryScore queryWords e) }

/-- `entry.relevanceScore || 0`. -/
def entryKey (e : IndexEntry) : Nat := e.relevanceScore.getD 0

/-- `documentIndex.map(entry => ({ ...entry, relevanceScore }))`. -/
def scoredEntries (documentIndex : List IndexEntry) (query : Str) : List IndexEntry :=
  documentIndex.map (scoreEntry (queryTokens query))

/-- `.filter(entry => entry.relevanceScore! > 0)`. -/
def positiveEntries (documentIndex : List IndexEntry) (query : Str) : List IndexEntry :=
  (scoredEntries documentIndex query).filter fun e => 0 < e.relevanceScore.getD 0

/-- `findRelevantIndexEntries`: score, filter, stable-sort descending,
`slice(0, 5)`. -/
def findRelevantIndexEntries (documentIndex : List IndexEntry) (query : Str) :
    List IndexEntry :=
  (jsStableSortByKeyDesc entryKey (positiveEntries documentIndex query)).take 5

/-! ### The fallback extractor: `extractBasicKeywords` -/

/-- `.replace(/[^\w\s]/g, ' ')`. -/
def stripSymbols (s : Str) : Str :=
  s.map fun c => if isWordChar c || isWs c then c else ' '

/-- `text.toLowerCase().replace(/[^\w\s]/g, ' ').split(/\s+/)
.filter(word => word.length > 3)`. -/
def wordsOf (text : Str) : List Str :=
  (splitWs (stripSymbols (toLowerStr text))).filter fun w => 3 < w.length

/-- `wordFreq[word] = (wordFreq[word] || 0) + 1` on an insertion-ordered table. -/
def bumpFreq (tbl : List (Str × Nat)) (w : Str) : List (Str × Nat) :=
  if tbl.any (fun p => p.1 = w) then
    tbl.map fun p => if p.1 = w then (p.1, p.2 + 1) else p
  else tbl ++ [(w, 1)]

/-- The `wordFreq` object built by `words.forEach(...)`. -/
def wordFreq (ws : List Str) : List (Str × Nat) := ws.foldl bumpFreq []

/-- Numeric value of a digit string. -/
def digitsToNat (s : Str) : Nat :=
  s.foldl (fun n c => n * 10 + (c.toNat - 48)) 0

/-- Whether a key is a canonical ECMAScript array index (all digits, no
leading zero unless the key is "0", value below 2^32 - 1). -/
def isArrayIndexKey (s : Str) : Bool :=
  !s.isEmpty && s.all Char.isDigit && (s == ['0'] || s.head? != some '0')
    && digitsToNat s < 4294967295

/-- Ascending numeric order on array-index keys. -/
def numKeyLe (a b : Str × Nat) : Prop := digitsToNat a.1 ≤ digitsToNat b.1

instance : DecidableRel numKeyLe :=
  fun a b => Nat.decLe (digitsToNat a.1) (digitsToNat b.1)

/-- `Object.entries(wordFreq)`: array-index keys in ascending numeric order
first, then the remaining keys in insertion order. -/
def objectEntries (tbl : List (Str × Nat)) : List (Str × Nat) :=
  (tbl.filter fun p => isArrayIndexKey p.1).insertionSort numKeyLe
    ++ tbl.filter fun p => !isArrayIndexKey p.1

/-- `extractBasicKeywords`: frequency table, stable sort descending by count,
`slice(0, 10)`, keep the words. -/
def extractBasicKeywords (text : Str) : List Str :=
  ((jsStableSortByKeyDesc (fun p => p.2) (objectEntries (wordFreq (wordsOf text)))).take
    10).map Prod.fst

/-! ### The Indexer: `parseAndIndexContent` -/

/-- The structured payload the analysis call is asked for.  Each field may be
absent in the parsed JSON (`analysis.keywords || []` etc.). -/
structure Analysis where
  keywords : Option (List Str)
  themes : Option (List Str)
  entities : Option (List Str)
  summary : Option Str
deriving DecidableEq

/-- `[...(analysis.keywords || []), ...(analysis.themes || []),
...(analysis.entities || [])]`. -/
def llmKeywords (a : Analysis) : List Str :=
  a.keywords.getD [] ++ a.themes.getD [] ++ a.entities.getD []

/-- A JavaScript `try { body } catch { handler }`. -/
def jsTry (body handler : Except Unit α) : Except Unit α :=
  match body with
  | .ok v => .ok v
  | .error _ => handler

/-- `parseAndIndexContent`, reduced to its effect on `documentIndex`.  The
model call and the JSON parse are oracles that either return a value or throw
(`modelCall` yields `choices[0]?.message?.content`, possibly absent;
`jsonParse` covers both a parse failure and a parsed value on which the
field accesses throw).  `newId` and `now` abstract the generated id and the
`Date` timestamp.  The result is `.error` exactly when an exception escapes
to the caller. -/
def parseAndIndexContent (apiKey : Option Str) (content : Str) (newId : Str)
    (now : Nat) (modelCall : Except Unit (Option Str))
    (jsonParse : Str → Except Unit Analysis) (documentIndex : List IndexEntry) :
    Except Unit (List IndexEntry) :=
  jsTry
    (match apiKey with
     | none => .ok documentIndex
     | some _ =>
       match modelCall with
       | .error e => .error e
       | .ok choice =>
         let analysisText := choice.getD []
         jsTry
           (match jsonParse analysisText with
            | .error e => .error e
            | .ok analysis =>
              .ok (documentIndex ++
                [⟨newId, content, llmKeywords analysis, now, none⟩]))
           (.ok (documentIndex ++
             [⟨newId, content, extractBasicKeywords content, now, none⟩])))
    (.ok documentIndex)

/-! ### The indexing trigger in `handleSendMessage` -/

/-- `inputValue.replace(/^(index this:|analyze this:)/i, '')`: remove one
leading marker, case-insensitively; a marker elsewhere is left alone. -/
def stripLeadingMarker (input : Str) : Str :=
  if ("index this:").data.isPrefixOf (toLowerStr input) then input.drop 11
  else if ("analyze this:").data.isPrefixOf (toLowerStr input) then input.drop 13
  else input

/-- The content handed to `parseAndIndexContent` by `handleSendMessage`, or
`none` when no indexing operation is triggered.  Mirrors the guards
`if (!inputValue.trim() || !apiKey) return`, the case-insensitive
`includes('index this:') || includes('analyze this:')` check, and the
`if (contentToIndex)` guard on the trimmed remainder. -/
def indexedContent (apiKey : Option Str) (input : Str) : Option Str :=
  if trim input = [] ∨ apiKey = none then none
  else if containsSub (toLowerStr input) ("index this:").data
      || containsSub (toLowerStr input) ("analyze this:").data then
    if trim (stripLeadingMarker input) = [] then none
    else some (trim (stripLeadingMarker input))
  else none

/-! ### The Context Builder: `buildEnhancedContext` -/

/-- First template literal, up to the interpolated `documentIndex.length`. -/
def ctxPreambleA : String :=
  "You are an Autonomous Desktop Agent with advanced document analysis and index parsing capabilities.\n\nCORE CAPABILITIES:\n1. Document Analysis & Index Parsing\n2. Intelligent Information Retrieval\n3. Context-Aware Response Generation\n4. Multi-modal Content Processing\n\nCURRENT SESSION CONTEXT:\n- Active Index Entries: "

/-- First template literal, after the interpolated `documentIndex.length`. -/
def ctxPreambleB : String :=
  "\n- Query Processing Mode: Enhanced Semantic Search\n- Relevance Threshold: High Priority\n\n"

/-- Header of the conditional relevant-content block. -/
def ctxRelevantHeader : String := "RELEVANT INDEXED CONTENT:\n"

/-- Third template literal, up to the interpolated user query. -/
def ctxInstructions : String :=
  "PROCESSING INSTRUCTIONS:\n1. Analyze the user query for intent and context requirements\n2. Cross-reference with indexed content when applicable\n3. Provide comprehensive, contextually-aware responses\n4. Suggest follow-up actions or related information when relevant\n5. Maintain conversation continuity and context awareness\n\nUSER QUERY: "

/-- Third template literal, after the interpolated user query. -/
def ctxClosing : String :=
  "\n\nPlease provide a detailed, contextually-aware response that leverages any relevant indexed content and demonstrates advanced reasoning capabilities."

/-- `` `- [${entry.id}] ${entry.content.substring(0, 200)}... (Keywords:
${entry.keywords.join(', ')})` ``. -/
def fmtRelevantEntry (e : IndexEntry) : Str :=
  ("- [").data ++ e.id ++ ("] ").data ++ e.content.take 200
    ++ ("... (Keywords: ").data ++ joinSep (", ").data e.keywords ++ (")").data

/-- `buildEnhancedContext`, as a function of the current index and the user
query. -/
def buildEnhancedContext (documentIndex : List IndexEntry) (userQuery : Str) :
    Str :=
  let relevantEntries := findRelevantIndexEntries documentIndex userQuery
  let context :=
    ctxPreambleA.data ++ natToStr documentIndex.length ++ ctxPreambleB.data
  let context :=
    if 0 < relevantEntries.length then
      context ++ ctxRelevantHeader.data
        ++ joinSep ("\n").data (relevantEntries.map fmtRelevantEntry)
        ++ ("\n\n").data
    else context
  context ++ ctxInstructions.data ++ userQuery ++ ctxClosing.data

/-! ### Specification-side definitions (from the claims' wording) -/

/-- The score as the claims word it: the number of (keyword, query-token)
pairs such that the lowercased keyword contains the token as a substring or
the token contains the lowercased keyword as a substring, each pair counted
once. -/
def pairCountSpec (tokens : List Str) (keywords : List Str) : Nat :=
  ((keywords.flatMap fun kw => tokens.map fun w => (kw, w)).filter fun p =>
    containsSub (toLowerStr p.1) p.2 || containsSub p.2 (toLowerStr p.1)).length

/-- The fallback extractor as claim C6 words it: identical pipeline, but with
frequency ties broken purely by first-appearance order (no reordering of
numeric keys). -/
def extractBasicKeywordsFirstSeen (text : Str) : List Str :=
  ((jsStableSortByKeyDesc (fun p => p.2) (wordFreq (wordsOf text))).take 10).map
    Prod.fst

/-! ### Generic facts about the stable-sort model -/

theorem le_fst_of_mem_enumFrom {q : Nat × α} :
    ∀ {n : Nat} {l : List α}, q ∈ l.enumFrom n → n ≤ q.1 := by
  intro n l
  induction l generalizing n with
  | nil => intro h; cases h
  | cons a l ih =>
    intro h
    rcases List.mem_cons.mp h with h | h
    · subst h; exact Nat.le_refl _
    · exact Nat.le_of_succ_le (ih h)

theorem pairwise_fst_lt_enumFrom (n : Nat) (l : List α) :
    (l.enumFrom n).Pairwise fun p q => p.1 < q.1 := by
  induction l generalizing n with
  | nil => exact List.Pairwise.nil
  | cons a l ih =>
    exact List.Pairwise.cons
      (fun q hq => Nat.lt_of_succ_le (le_fst_of_mem_enumFrom hq)) (ih (n + 1))

theorem pairwise_fst_lt_enum (l : List α) :
    l.enum.Pairwise fun p q => p.1 < q.1 :=
  pairwise_fst_lt_enumFrom 0 l

theorem map_snd_orderedInsert (key : α → Nat) (p : Nat × α) :
    ∀ (s : List (Nat × α)), (∀ q ∈ s, p.1 < q.1) →
      (s.orderedInsert (rLexDesc key) p).map Prod.snd
        = (s.map Prod.snd).orderedInsert (rKeyDesc key) p.2 := by
  intro s
  induction s with
  | nil => intro _; rfl
  | cons q s ih =>
    intro h
    have hpq : p.1 < q.1 := h q (List.mem_cons_self q s)
    have hiff : rLexDesc key p q ↔ rKeyDesc key p.2 q.2 := by
      unfold rLexDesc rKeyDesc; omega
    by_cases hc : rKeyDesc key p.2 q.2
    · rw [List.orderedInsert, if_pos (hiff.mpr hc)]
      simp only [List.map_cons]
      rw [List.orderedInsert, if_pos hc]
    · rw [List.orderedInsert, if_neg (fun hl => hc (hiff.mp hl))]
      simp only [List.map_cons]
      rw [List.orderedInsert, if_neg hc,
        ih (fun r hr => h r (List.mem_cons_of_mem q hr))]

theorem map_snd_insertionSort (key : α → Nat) :
    ∀ (l : List (Nat × α)), (l.Pairwise fun p q => p.1 < q.1) →
      (l.insertionSort (rLexDesc key)).map Prod.snd
        = (l.map Prod.snd).insertionSort (rKeyDesc key) := by
  intro l
  induction l with
  | nil => intro _; rfl
  | cons p l ih =>
    intro h
    rcases List.pairwise_cons.mp h with ⟨h1, h2⟩
    rw [List.insertionSort, List.map_cons, List.insertionSort,
      map_snd_orderedInsert key p _
        (fun q hq => h1 q ((List.mem_insertionSort _).mp hq)),
      ih h2]

/-- The position-tagged sort used to model a stable ECMAScript sort agrees
with the plain (stable) insertion sort by the descending key order. -/
theorem jsStableSortByKeyDesc_eq_insertionSort (key : α → Nat) (l : List α) :
    jsStableSortByKeyDesc key l = l.insertionSort (rKeyDesc key) := by
  unfold jsStableSortByKeyDesc
  rw [map_snd_insertionSort key _ (pairwise_fst_lt_enum l), List.enum_map_snd]

theorem jsStableSortByKeyDesc_perm (key : α → Nat) (l : List α) :
    List.Perm (jsStableSortByKeyDesc key l) l := by
  rw [jsStableSortByKeyDesc_eq_insertionSort]
  exact List.perm_insertionSort _ l

/-! ### The computed score coincides with the pair-count specification -/

theorem foldl_score_eq (tokens : List Str) :
    ∀ (kws : List Str) (init : Nat),
      kws.foldl (fun s kw => s + keywordMatchCount tokens kw) init
        = init + pairCountSpec tokens kws := by
  intro kws
  induction kws with
  | nil => intro init; simp [pairCountSpec]
  | cons kw kws ih =>
    intro init
    rw [List.foldl_cons, ih]
    have hhead :
        (((tokens.map fun w => (kw, w)).filter fun p =>
            containsSub (toLowerStr p.1) p.2 || containsSub p.2 (toLowerStr p.1)).length)
          = keywordMatchCount tokens kw := by
      rw [List.filter_map, List.length_map]
      rfl
    simp only [pairCountSpec, List.flatMap_cons, List.filter_append,
      List.length_append] at *
    omega

theorem entryScore_eq_pairCountSpec (tokens : List Str) (e : IndexEntry) :
    entryScore tokens e = pairCountSpec tokens e.keywords := by
  have := foldl_score_eq tokens e.keywords 0
  simpa [entryScore] using this

/-! ### Membership in the retrieval result -/

theorem mem_findRelevant {idx : List IndexEntry} {q : Str} {e : IndexEntry}
    (h : e ∈ findRelevantIndexEntries idx q) :
    ∃ e₀, e₀ ∈ idx ∧ e = scoreEntry (queryTokens q) e₀ ∧
      0 < entryScore (queryTokens q) e₀ := by
  unfold findRelevantIndexEntries at h
  have h1 : e ∈ jsStableSortByKeyDesc entryKey (positiveEntries idx q) :=
    List.take_subset _ _ h
  have h2 : e ∈ positiveEntries idx q :=
    (jsStableSortByKeyDesc_perm _ _).mem_iff.mp h1
  unfold positiveEntries at h2
  rcases List.mem_filter.mp h2 with ⟨h3, h4⟩
  unfold scoredEntries at h3
  rcases List.mem_map.mp h3 with ⟨e₀, he₀, rfl⟩
  refine ⟨e₀, he₀, rfl, ?_⟩
  simpa [scoreEntry] using h4

/-! ### Whitespace-only queries -/

theorem containsSub_nil (s : Str) : containsSub s [] = true := by
  induction s with
  | nil => rfl
  | cons a s ih => simp [containsSub, List.isPrefixOf, ih]

theorem toLower_of_isWs {c : Char} (h : isWs c = true) : c.toLower = c := by
  unfold isWs at h
  simp only [Bool.or_eq_true, beq_iff_eq] at h
  rcases h with ((((h | h) | h) | h) | h) | h <;> subst h <;> decide

theorem isWs_toLower_of_isWs {c : Char} (h : isWs c = true) :
    isWs c.toLower = true := by rw [toLower_of_isWs h]; exact h

theorem mem_compressWs : ∀ {s : Str} {c : Char}, c ∈ compressWs s → c ∈ s := by
  intro s
  induction s with
  | nil => intro c h; cases h
  | cons a s ih =>
    intro c h
    cases s with
    | nil => exact h
    | cons b s =>
      rw [compressWs] at h
      by_cases hab : (isWs a && isWs b) = true
      · rw [if_pos hab] at h
        exact List.mem_cons_of_mem a (ih h)
      · rw [if_neg hab] at h
        rcases List.mem_cons.mp h with rfl | h
        · exact List.mem_cons_self _ _
        · exact List.mem_cons_of_mem a (ih h)

theorem eq_nil_of_mem_splitOnP_of_all {p : α → Bool} :
    ∀ {l : List α}, (∀ c ∈ l, p c = true) → ∀ t ∈ l.splitOnP p, t = [] := by
  intro l
  induction l with
  | nil =>
    intro _ t ht
    rw [List.splitOnP_nil, List.mem_singleton] at ht
    exact ht
  | cons a l ih =>
    intro h t ht
    rw [List.splitOnP_cons, if_pos (h a (List.mem_cons_self a l))] at ht
    rcases List.mem_cons.mp ht with rfl | ht
    · rfl
    · exact ih (fun c hc => h c (List.mem_cons_of_mem a hc)) t ht

/-- For a whitespace-only query string every produced token is empty, and at
least one token is produced. -/
theorem queryTokens_of_ws {q : Str} (h : ∀ c ∈ q, isWs c = true) :
    (∀ t ∈ queryTokens q, t = []) ∧ 0 < (queryTokens q).length := by
  have hlow : ∀ c ∈ toLowerStr q, isWs c = true := by
    intro c hc
    rcases List.mem_map.mp hc with ⟨c₀, hc₀, rfl⟩
    exact isWs_toLower_of_isWs (h c₀ hc₀)
  have hall : ∀ c ∈ compressWs (toLowerStr q), isWs c = true :=
    fun c hc => hlow c (mem_compressWs hc)
  constructor
  · exact eq_nil_of_mem_splitOnP_of_all hall
  · have hne : (compressWs (toLowerStr q)).splitOnP isWs ≠ [] :=
      List.splitOnP_ne_nil _ _
    have : queryTokens q ≠ [] := hne
    exact List.length_pos.mpr this

theorem keywordMatchCount_of_all_nil {tokens : List Str}
    (h : ∀ t ∈ tokens, t = []) (kw : Str) :
    keywordMatchCount tokens kw = tokens.length := by
  unfold keywordMatchCount
  rw [List.filter_eq_self.mpr]
  intro t ht
  rw [h t ht, containsSub_nil]
  simp

theorem entryScore_of_all_nil {tokens : List Str}
    (h : ∀ t ∈ tokens, t = []) (e : IndexEntry) :
    entryScore tokens e = e.keywords.length * tokens.length := by
  unfold entryScore
  have : ∀ (kws : List Str) (init : Nat),
      kws.foldl (fun s kw => s + keywordMatchCount tokens kw) init
        = init + kws.length * tokens.length := by
    intro kws
    induction kws with
    | nil => intro init; simp
    | cons kw kws ih =>
      intro init
      rw [List.foldl_cons, ih, keywordMatchCount_of_all_nil h]
      simp only [List.length_cons]
      ring
  simpa using this e.keywords 0

/-! ### Trim and substring-containment facts (for the trigger analysis) -/

theorem all_ws_of_trim_eq_nil {l : Str} (h : trim l = []) :
    ∀ c ∈ l, isWs c = true := by
  unfold trim at h
  rw [List.reverse_eq_nil_iff] at h
  have h2 : ∀ c ∈ (l.dropWhile isWs).reverse, isWs c = true :=
    List.dropWhile_eq_nil_iff.mp h
  have h3 : ∀ c ∈ l.dropWhile isWs, isWs c = true := by
    intro c hc; exact h2 c (List.mem_reverse.mpr hc)
  intro c hc
  rw [← List.takeWhile_append_dropWhile (p := isWs) (l := l)] at hc
  rcases List.mem_append.mp hc with hc | hc
  · exact List.mem_takeWhile_imp hc
  · exact h3 c hc

theorem mem_of_containsSub :
    ∀ {s t : Str}, containsSub s t = true → ∀ {c}, c ∈ t → c ∈ s := by
  intro s
  induction s with
  | nil =>
    intro t h c hc
    unfold containsSub at h
    rw [List.isEmpty_iff] at h
    subst h; cases hc
  | cons a s ih =>
    intro t h c hc
    unfold containsSub at h
    rcases Bool.or_eq_true _ _ |>.mp h with h | h
    · exact (List.isPrefixOf_iff_prefix.mp h).subset hc
    · exact List.mem_cons_of_mem a (ih h hc)

/-! ### The fallback keyword list has no duplicates -/

theorem keys_bumpFreq_nodup {tbl : List (Str × Nat)} {w : Str}
    (h : (tbl.map Prod.fst).Nodup) : ((bumpFreq tbl w).map Prod.fst).Nodup := by
  unfold bumpFreq
  by_cases hmem : tbl.any (fun p => p.1 = w) = true
  · rw [if_pos hmem, List.map_map]
    have : tbl.map (Prod.fst ∘ fun p => if p.1 = w then (p.1, p.2 + 1) else p)
        = tbl.map Prod.fst := by
      apply List.map_congr_left
      intro p _
      by_cases hp : p.1 = w
      · simp [Function.comp, hp]
      · simp [Function.comp, hp]
    rw [this]; exact h
  · rw [if_neg hmem, List.map_append]
    rw [List.nodup_append]
    refine ⟨h, List.nodup_singleton _, ?_⟩
    intro a ha hb
    rw [List.map_singleton, List.mem_singleton] at hb
    rcases List.mem_map.mp ha with ⟨p, hp, hpw⟩
    have hany : tbl.any (fun p => p.1 = w) = true :=
      List.any_eq_true.mpr ⟨p, hp, by simp [hpw, hb]⟩
    exact hmem hany

theorem keys_wordFreq_nodup (ws : List Str) :
    ((wordFreq ws).map Prod.fst).Nodup := by
  unfold wordFreq
  have : ∀ (ws : List Str) (tbl : List (Str × Nat)),
      (tbl.map Prod.fst).Nodup → ((ws.foldl bumpFreq tbl).map Prod.fst).Nodup := by
    intro ws
    induction ws with
    | nil => intro tbl h; exact h
    | cons w ws ih =>
      intro tbl h
      rw [List.foldl_cons]
      exact ih _ (keys_bumpFreq_nodup h)
  exact this ws [] List.nodup_nil

theorem keys_objectEntries_perm (tbl : List (Str × Nat)) :
    List.Perm ((objectEntries tbl).map Prod.fst) (tbl.map Prod.fst) := by
  unfold objectEntries
  refine List.Perm.map Prod.fst ?_
  exact ((List.perm_insertionSort _ _).append_right _).trans
    (List.filter_append_perm _ tbl)

theorem nodup_extractBasicKeywords (text : Str) :
    (extractBasicKeywords text).Nodup := by
  unfold extractBasicKeywords
  have h1 : ((objectEntries (wordFreq (wordsOf text))).map Prod.fst).Nodup :=
    (keys_objectEntries_perm _).nodup_iff.mpr (keys_wordFreq_nodup _)
  have h2 : ((jsStableSortByKeyDesc (fun p => p.2)
      (objectEntries (wordFreq (wordsOf text)))).map Prod.fst).Nodup :=
    ((jsStableSortByKeyDesc_perm _ _).map Prod.fst).nodup_iff.mpr h1
  rw [List.map_take]
  exact List.Nodup.sublist (List.take_sublist 10 _) h2

/-! ### Concrete sample data used by witnesses and counterexamples -/

/-- A one-keyword record. -/
def sampleEntry : IndexEntry := ⟨("id1").data, ("abcd").data, [("abcd").data], 0, none⟩

/-- The scored copy of `sampleEntry` for the query `"abcd"`. -/
def sampleScored : IndexEntry := ⟨("id1").data, ("abcd").data, [("abcd").data], 0, some 1⟩

/-- A one-record index with a non-empty keyword list. -/
def c3Index : List IndexEntry := [⟨("idA").data, ("abcd").data, [("abcd").data], 0, none⟩]

/-! ### Claim C1 -/

/-- C1: every record in the result of `findRelevantIndexEntries` carries a
relevance score equal to the number of (keyword, query-token) pairs in either
substring relation (tokens obtained by lowercasing the query and splitting on
whitespace, pairs counted once), and every record whose pair count is zero is
discarded from the result. -/
theorem c1_score_is_pair_count : ∀ (idx : List IndexEntry) (q : Str),
    (∀ e ∈ findRelevantIndexEntries idx q,
      e.relevanceScore = some (pairCountSpec (queryTokens q) e.keywords) ∧
        0 < pairCountSpec (queryTokens q) e.keywords) ∧
    (∀ e₀ ∈ idx, pairCountSpec (queryTokens q) e₀.keywords = 0 →
      scoreEntry (queryTokens q) e₀ ∉ findRelevantIndexEntries idx q) := by
  intro idx q
  constructor
  · intro e he
    rcases mem_findRelevant he with ⟨e₀, _, rfl, hpos⟩
    constructor
    · simp [scoreEntry, entryScore_eq_pairCountSpec]
    · simpa [scoreEntry, ← entryScore_eq_pairCountSpec] using hpos
  · intro e₀ _ hzero hmem
    rcases mem_findRelevant hmem with ⟨e₁, _, heq, hpos⟩
    have hsc : entryScore (queryTokens q) e₀ = entryScore (queryTokens q) e₁ := by
      have := congrArg IndexEntry.relevanceScore heq
      simpa [scoreEntry] using this
    have h₀ : entryScore (queryTokens q) e₀ = 0 := by
      rw [entryScore_eq_pairCountSpec]; exact hzero
    omega

theorem c1_score_is_pair_count_witness :
    sampleScored ∈ findRelevantIndexEntries [sampleEntry] ("abcd").data ∧
    (sampleScored.relevanceScore
        = some (pairCountSpec (queryTokens ("abcd").data) sampleScored.keywords) ∧
      0 < pairCountSpec (queryTokens ("abcd").data) sampleScored.keywords) :=
  ⟨by decide, (c1_score_is_pair_count [sampleEntry] ("abcd").data).1
    sampleScored (by decide)⟩

/-! ### Claim C2 -/

/-- C2: the result of `findRelevantIndexEntries` has length at most 5 and is
the first 5 elements of the positive-scoring records stably sorted by score
descending: it equals the take-5 of the stable insertion sort by descending
score, and it arises from a permutation of the position-tagged positive
records that is sorted by «score descending, position ascending» (so the
first-inserted record wins every tie). -/
theorem c2_top5_stable_sorted : ∀ (idx : List IndexEntry) (q : Str),
    (findRelevantIndexEntries idx q).length ≤ 5 ∧
    findRelevantIndexEntries idx q
      = ((positiveEntries idx q).insertionSort (rKeyDesc entryKey)).take 5 ∧
    ∃ R, List.Perm R (positiveEntries idx q).enum ∧
      R.Sorted (rLexDesc entryKey) ∧
      findRelevantIndexEntries idx q = (R.take 5).map Prod.snd := by
  intro idx q
  refine ⟨List.length_take_le 5 _, ?_, ?_⟩
  · unfold findRelevantIndexEntries
    rw [jsStableSortByKeyDesc_eq_insertionSort]
  · refine ⟨(positiveEntries idx q).enum.insertionSort (rLexDesc entryKey),
      List.perm_insertionSort _ _, List.sorted_insertionSort _ _, ?_⟩
    unfold findRelevantIndexEntries jsStableSortByKeyDesc
    rw [List.map_take]

/-! ### Claim C3 -/

/-- C3 is refuted: with the empty query the tokenizer yields `[""]`, the empty
token is a substring of every keyword, so the sample record scores 1 and the
result is not empty (the claim predicts score 0 and an empty result on every
non-empty index). -/
theorem c3_counterexample :
    findRelevantIndexEntries c3Index []
        = [⟨("idA").data, ("abcd").data, [("abcd").data], 0, some 1⟩] ∧
    findRelevantIndexEntries c3Index [] ≠ [] := by decide

/-- C3 (amended): an empty or whitespace-only query tokenizes to a non-empty
list of empty-string tokens; every keyword contains the empty token, so each
record scores `#keywords * #tokens` instead of 0, and the result is empty
exactly when every record of the index has an empty keyword list. -/
theorem c3_ws_query_scores : ∀ (idx : List IndexEntry) (q : Str),
    (∀ c ∈ q, isWs c = true) →
    0 < (queryTokens q).length ∧
    (∀ e ∈ idx, entryScore (queryTokens q) e
        = e.keywords.length * (queryTokens q).length) ∧
    (findRelevantIndexEntries idx q = [] ↔ ∀ e ∈ idx, e.keywords = []) := by
  intro idx q hq
  obtain ⟨hnil, hlen⟩ := queryTokens_of_ws hq
  refine ⟨hlen, fun e _ => entryScore_of_all_nil hnil e, ?_⟩
  unfold findRelevantIndexEntries
  rw [List.take_eq_nil_iff]
  constructor
  · intro h e₀ he₀
    rcases h with h | h
    · exact absurd h (by decide)
    · have hpos : positiveEntries idx q = [] := by
        have hperm := jsStableSortByKeyDesc_perm entryKey (positiveEntries idx q)
        rw [h] at hperm
        exact (hperm.symm).eq_nil
      unfold positiveEntries scoredEntries at hpos
      have hnot := List.filter_eq_nil_iff.mp hpos (scoreEntry (queryTokens q) e₀)
        (List.mem_map_of_mem _ he₀)
      have hsc : entryScore (queryTokens q) e₀ = 0 := by
        simpa [scoreEntry] using hnot
      rw [entryScore_of_all_nil hnil] at hsc
      have : e₀.keywords.length = 0 := by
        rcases Nat.mul_eq_zero.mp hsc with h' | h'
        · exact h'
        · omega
      exact List.length_eq_zero.mp this
  · intro h
    right
    have hpos : positiveEntries idx q = [] := by
      unfold positiveEntries scoredEntries
      rw [List.filter_eq_nil_iff]
      intro e' he'
      rcases List.mem_map.mp he' with ⟨e₀, he₀, rfl⟩
      simp [scoreEntry, entryScore_of_all_nil hnil, h e₀ he₀]
    rw [hpos]
    rfl

theorem c3_ws_query_scores_witness :
    (∀ c ∈ ([' '] : Str), isWs c = true) ∧
    (0 < (queryTokens [' ']).length ∧
      (∀ e ∈ c3Index, entryScore (queryTokens [' ']) e
          = e.keywords.length * (queryTokens [' ']).length) ∧
      (findRelevantIndexEntries c3Index [' '] = [] ↔
        ∀ e ∈ c3Index, e.keywords = [])) :=
  ⟨by decide, c3_ws_query_scores c3Index [' '] (by decide)⟩

/-! ### Claim C4 -/

/-- C4 is refuted in its "any extraction error" part: when the model call
itself fails, the error is absorbed by the outer catch and nothing is
appended — the index stays empty, although the claim asserts a fallback
record is still appended. -/
theorem c4_counterexample :
    parseAndIndexContent (some [('k' : Char)]) ("good text here").data ("i").data 0
      (.error ()) (fun _ => .error ()) [] = .ok ([] : List IndexEntry) := rfl

/-- C4 (amended): `parseAndIndexContent` never throws to the caller, and when
the model call succeeds but its response cannot be parsed, it falls back to
the local heuristic extractor and appends exactly one record with the
fallback keywords; a failure of the model call itself is absorbed with no
record appended. -/
theorem c4_fails_soft : ∀ (apiKey : Option Str) (content newId : Str) (now : Nat)
    (modelCall : Except Unit (Option Str))
    (jsonParse : Str → Except Unit Analysis) (idx : List IndexEntry),
    (∃ v, parseAndIndexContent apiKey content newId now modelCall jsonParse idx
        = .ok v) ∧
    (∀ k t, apiKey = some k → modelCall = .ok t →
      jsonParse (t.getD []) = .error () →
      parseAndIndexContent apiKey content newId now modelCall jsonParse idx
        = .ok (idx ++
            [⟨newId, content, extractBasicKeywords content, now, none⟩])) := by
  intro apiKey content newId now modelCall jsonParse idx
  constructor
  · cases apiKey with
    | none => exact ⟨idx, rfl⟩
    | some k =>
      cases modelCall with
      | error e => exact ⟨idx, rfl⟩
      | ok t =>
        cases hp : jsonParse (t.getD []) with
        | error e =>
          exact ⟨idx ++ [⟨newId, content, extractBasicKeywords content, now, none⟩],
            by simp [parseAndIndexContent, jsTry, hp]⟩
        | ok a =>
          exact ⟨idx ++ [⟨newId, content, llmKeywords a, now, none⟩],
            by simp [parseAndIndexContent, jsTry, hp]⟩
  · intro k t hk ht hp
    subst hk; subst ht
    simp [parseAndIndexContent, jsTry, hp]

/-- The always-failing parse oracle used in the C4 witness. -/
def jpFail : Str → Except Unit Analysis := fun _ => .error ()

theorem c4_fails_soft_witness :
    jpFail ((some ("x").data).getD []) = .error () ∧
    parseAndIndexContent (some ("k").data) ("good text").data ("i").data 0
        (.ok (some ("x").data)) jpFail []
      = .ok [⟨("i").data, ("good text").data,
          extractBasicKeywords ("good text").data, 0, none⟩] :=
  ⟨rfl, (c4_fails_soft (some ("k").data) ("good text").data ("i").data 0
      (.ok (some ("x").data)) jpFail []).2 ("k").data (some ("x").data)
      rfl rfl rfl⟩

/-! ### Claim C5 -/

/-- C5 is refuted: the message "please index this: abc" does not begin with
either marker, yet it triggers an indexing operation, and the content passed
is the whole message rather than a remainder after a leading marker. -/
theorem c5_counterexample :
    indexedContent (some [('k' : Char)]) ("please index this: abc").data
        = some ("please index this: abc").data ∧
    ("index this:").data.isPrefixOf
        (toLowerStr ("please index this: abc").data) = false ∧
    ("analyze this:").data.isPrefixOf
        (toLowerStr ("please index this: abc").data) = false := by decide

/-- C5 (amended): with an API key present, an indexing operation is triggered
exactly when the message contains `index this:` or `analyze this:`
case-insensitively anywhere and the message with a leading marker removed
(the message unchanged when the marker is not at the start), trimmed, is
non-empty; that trimmed remainder is the content passed to the Indexer. -/
theorem c5_trigger_contains : ∀ (key input c : Str),
    indexedContent (some key) input = some c ↔
      ((containsSub (toLowerStr input) ("index this:").data
          || containsSub (toLowerStr input) ("analyze this:").data) = true ∧
        c = trim (stripLeadingMarker input) ∧ c ≠ []) := by
  intro key input c
  unfold indexedContent
  constructor
  · intro h
    by_cases h1 : trim input = [] ∨ (some key : Option Str) = none
    · rw [if_pos h1] at h; cases h
    · rw [if_neg h1] at h
      by_cases h2 : (containsSub (toLowerStr input) ("index this:").data
          || containsSub (toLowerStr input) ("analyze this:").data) = true
      · rw [if_pos h2] at h
        by_cases h3 : trim (stripLeadingMarker input) = []
        · rw [if_pos h3] at h; cases h
        · rw [if_neg h3] at h
          have hc := Option.some.inj h
          exact ⟨h2, hc.symm, fun hn => h3 (hn ▸ hc)⟩
      · rw [if_neg h2] at h; cases h
  · rintro ⟨hc, rfl, hne⟩
    have hguard : ¬(trim input = [] ∨ (some key : Option Str) = none) := by
      rintro (h | h)
      · have hall := all_ws_of_trim_eq_nil h
        have hcolon : (':' : Char) ∈ toLowerStr input := by
          rcases Bool.or_eq_true _ _ |>.mp hc with hct | hct
          · exact mem_of_containsSub hct (by decide)
          · exact mem_of_containsSub hct (by decide)
        rcases List.mem_map.mp hcolon with ⟨c₀, hc₀, he⟩
        have hw := isWs_toLower_of_isWs (hall c₀ hc₀)
        rw [he] at hw
        exact absurd hw (by decide)
      · exact Option.some_ne_none key h
    rw [if_neg hguard, if_pos hc, if_neg hne]

/-! ### Claim C6 -/

/-- C6 is refuted on numeric tokens: in "abcd 1234" both tokens occur once
and "abcd" appears first, but `Object.entries` enumerates the array-index key
"1234" before the string key "abcd", so the extractor output is not in
first-appearance order on this tie. -/
theorem c6_counterexample :
    extractBasicKeywords ("abcd 1234").data = [("1234").data, ("abcd").data] ∧
    extractBasicKeywordsFirstSeen ("abcd 1234").data
        = [("abcd").data, ("1234").data] ∧
    extractBasicKeywords ("abcd 1234").data
        ≠ extractBasicKeywordsFirstSeen ("abcd 1234").data := by decide

/-- C6 (amended): the fallback extractor lowercases, strips every character
outside `\w` and `\s`, splits on whitespace, drops tokens of length ≤ 3,
counts frequencies, stable-sorts the frequency table in `Object.entries`
order (canonical array-index tokens ascending first, then first-seen order)
by descending count, and takes the top 10: it equals the take-10 of the
stable insertion sort of `objectEntries` by descending count, obtained from a
sorted permutation of the position-tagged table. -/
theorem c6_fallback_pipeline : ∀ text : Str,
    extractBasicKeywords text
      = (((objectEntries (wordFreq (wordsOf text))).insertionSort
            (rKeyDesc fun p => p.2)).take 10).map Prod.fst ∧
    ∃ M, List.Perm M (objectEntries (wordFreq (wordsOf text))).enum ∧
      M.Sorted (rLexDesc fun p => p.2) ∧
      extractBasicKeywords text = ((M.take 10).map Prod.snd).map Prod.fst := by
  intro text
  constructor
  · unfold extractBasicKeywords
    rw [jsStableSortByKeyDesc_eq_insertionSort]
  · refine ⟨(objectEntries (wordFreq (wordsOf text))).enum.insertionSort
        (rLexDesc fun p => p.2),
      List.perm_insertionSort _ _, List.sorted_insertionSort _ _, ?_⟩
    unfold extractBasicKeywords jsStableSortByKeyDesc
    simp only [List.map_take]

/-! ### Claim C7 -/

/-- The scenario sentence of the spec. -/
def foxText : Str := ("The quick brown fox jumps over the lazy dog").data

/-- The record produced by fallback extraction on the scenario sentence. -/
def foxEntry : IndexEntry :=
  ⟨("idx_fox").data, foxText, extractBasicKeywords foxText, 0, none⟩

/-- C7 is refuted: "fox" has length 3 and is excluded by the `length > 3`
filter (like "the" and "dog"), so it is not among the fallback keywords, and
the query "brown fox" scores the record 1 (only "brown" matches), not at
least 2. -/
theorem c7_counterexample :
    ("fox").data ∉ extractBasicKeywords foxText ∧
    (findRelevantIndexEntries [foxEntry] ("brown fox").data).map
        (fun e => e.relevanceScore) = [some 1] := by decide

/-- C7 (amended): the fallback keywords for the scenario sentence are exactly
[quick, brown, jumps, over, lazy] — "the", "fox" and "dog" are all excluded
as length ≤ 3 — and the query "brown fox" returns the record with relevance
score 1 (at least 1, not at least 2). -/
theorem c7_scenario :
    extractBasicKeywords foxText
      = [("quick").data, ("brown").data, ("jumps").data, ("over").data,
          ("lazy").data] ∧
    findRelevantIndexEntries [foxEntry] ("brown fox").data
      = [{ foxEntry with relevanceScore := some 1 }] := by decide

/-! ### Claim C8 -/

/-- The session block of the context, reporting the current index size. -/
def sessionHeader (n : Nat) : Str :=
  ctxPreambleA.data ++ natToStr n ++ ctxPreambleB.data

/-- The relevant-content block: each record as
`- [id] first-200-chars... (Keywords: comma-joined keywords)`, in order. -/
def relevantBlock (entries : List IndexEntry) : Str :=
  ctxRelevantHeader.data ++ joinSep ("\n").data (entries.map fmtRelevantEntry)
    ++ ("\n\n").data

/-- C8 (amended): the context reports the current index size in its session
block, contains the relevant-content block — each retrieved record listed in
retriever order — exactly when `findRelevantIndexEntries` is non-empty, and
embeds the literal user query after the processing instructions, followed by
the fixed closing sentence (the query is not the final text of the string). -/
theorem c8_context_layout : ∀ (idx : List IndexEntry) (q : Str),
    buildEnhancedContext idx q
      = sessionHeader idx.length
          ++ (if findRelevantIndexEntries idx q = [] then []
              else relevantBlock (findRelevantIndexEntries idx q))
          ++ ctxInstructions.data ++ q ++ ctxClosing.data := by
  intro idx q
  unfold buildEnhancedContext sessionHeader relevantBlock
  by_cases h : findRelevantIndexEntries idx q = []
  · simp [h]
  · have hlen : 0 < (findRelevantIndexEntries idx q).length := List.length_pos.mpr h
    simp [h, hlen, List.append_assoc]

set_option maxRecDepth 4000 in
/-- C8 is refuted on its final conjunct: the context built for the query
"hello" does not end with the query — the fixed closing sentence follows it. -/
theorem c8_counterexample :
    ("hello").data.isSuffixOf (buildEnhancedContext [] ("hello").data)
      = false := by decide

/-! ### Claim C9 -/

/-- C9: retrieval is read-only and attaches the transient score only to
copies: every element of the result is a copy of some record of the index,
identical in `id`, `content`, `keywords` and `timestamp`, with
`relevanceScore` set on the copy to the computed score.  (Determinism and
absence of index mutation hold by construction in this embedding: the source
function performs no state update, and its translation is a pure function of
the index and the query.) -/
theorem c9_returns_scored_copies : ∀ (idx : List IndexEntry) (q : Str)
    (e : IndexEntry), e ∈ findRelevantIndexEntries idx q →
    ∃ e₀, e₀ ∈ idx ∧ e = scoreEntry (queryTokens q) e₀ ∧
      e.id = e₀.id ∧ e.content = e₀.content ∧ e.keywords = e₀.keywords ∧
      e.timestamp = e₀.timestamp ∧
      e.relevanceScore = some (entryScore (queryTokens q) e₀) := by
  intro idx q e he
  rcases mem_findRelevant he with ⟨e₀, he₀, rfl, _⟩
  exact ⟨e₀, he₀, rfl, rfl, rfl, rfl, rfl, rfl⟩

theorem c9_returns_scored_copies_witness :
    sampleScored ∈ findRelevantIndexEntries [sampleEntry] ("abcd").data ∧
    ∃ e₀, e₀ ∈ [sampleEntry] ∧
      sampleScored = scoreEntry (queryTokens ("abcd").data) e₀ ∧
      sampleScored.id = e₀.id ∧ sampleScored.content = e₀.content ∧
      sampleScored.keywords = e₀.keywords ∧
      sampleScored.timestamp = e₀.timestamp ∧
      sampleScored.relevanceScore
        = some (entryScore (queryTokens ("abcd").data) e₀) :=
  ⟨by decide, c9_returns_scored_copies [sampleEntry] ("abcd").data
    sampleScored (by decide)⟩

/-! ### Claim C10 -/

/-- C10: the fallback extractor always returns pairwise-distinct keywords —
they are keys of a frequency table — while the LLM-path keyword assembly
(keywords ++ themes ++ entities) can contain duplicates. -/
theorem c10_fallback_nodup :
    (∀ text : Str, (extractBasicKeywords text).Nodup) ∧
    ¬(llmKeywords ⟨some [[('a' : Char)]], some [[('a' : Char)]], none,
        none⟩).Nodup :=
  ⟨nodup_extractBasicKeywords, by decide⟩

end AutoAgent
